import Mathlib

/-!
Shallow embedding of the neighbor-stencil / pair-force core of this LAMMPS
excerpt, and proofs of the spec claims about it.

Embedded source units:
* `PairSMATB` — the SMATB many-body pair style (`pair_smatb.cpp`): the
  two-pass `compute` with its per-atom accumulator `on_eb`, `init_one`'s
  switching-polynomial coefficient derivation, `settings`, and the
  `write_restart` / `read_restart` coefficient layout.
* `CPairPOD` — the POD pair style (`pair_pod.cpp`): `settings`, `init_one`,
  and the `lammpsNeighPairs` neighbor-pair filter.
* `NStencilFullMultiOld3d` — `nstencil_full_multi_old_3d.cpp`'s `create`.
* `GranSubModDampingTsuji` / `DampingTsuji` — the two Tsuji damping
  coefficient computations.

Machine doubles are modelled by elements of a linear ordered field
(instantiated at `ℚ` for concrete evaluation and at `ℝ` for calculus);
the transcendental library calls `sqrt` and `exp` that the C code makes
are passed in as explicit function parameters, so every definition stays
executable and the theorems quantify over those functions wherever the
property does not depend on their values.
-/

/-- Pointwise update of a two-index table at entry `(i, j)`, modelling an
assignment `T[i][j] = v` to a C 2-d array represented as `ℕ → ℕ → α`. -/
def upd2 {α : Type} (f : ℕ → ℕ → α) (i j : ℕ) (v : α) : ℕ → ℕ → α :=
  fun a b => if a = i ∧ b = j then v else f a b

theorem upd2_same {α : Type} (f : ℕ → ℕ → α) (i j : ℕ) (v : α) :
    upd2 f i j v i j = v := by simp [upd2]

theorem upd2_other {α : Type} (f : ℕ → ℕ → α) (i j a b : ℕ) (v : α)
    (h : ¬(a = i ∧ b = j)) : upd2 f i j v a b = f a b := by simp [upd2, h]

/-- Pointwise update of a one-index array at entry `i`, modelling `A[i] = v`. -/
def upd1 {α : Type} (f : ℕ → α) (i : ℕ) (v : α) : ℕ → α :=
  fun a => if a = i then v else f a

theorem upd1_same {α : Type} (f : ℕ → α) (i : ℕ) (v : α) : upd1 f i v i = v := by
  simp [upd1]

theorem upd1_other {α : Type} (f : ℕ → α) (i a : ℕ) (v : α) (h : a ≠ i) :
    upd1 f i v a = f a := by simp [upd1, h]

namespace MathSpecial

/-- `MathSpecial::square(x)` from `math_special.h`: `x * x`. -/
def square {F : Type} [Field F] (x : F) : F := x * x

/-- `MathSpecial::cube(x)` from `math_special.h`: `x * x * x`. -/
def cube {F : Type} [Field F] (x : F) : F := x * x * x

/-- `MathSpecial::powint(x, n)` from `math_special.h`: the exact integer
power `x^n` (computed there by repeated squaring). -/
def powint {F : Type} [Field F] (x : F) (n : ℕ) : F := x ^ n

end MathSpecial

namespace GranSubModDampingTsuji

/-- `GranSubModDampingTsuji::init` (gran_sub_mod_damping.cpp, lines 127-133):
the damp coefficient computed from the normal model's damp value `tmp`,
written exactly as the source accumulates it in three statements. -/
def dampOf {F : Type} [Field F] (tmp : F) : F :=
  let damp := 1.2728 - 4.2783 * tmp + 11.087 * MathSpecial.square tmp
  let damp := damp + (-22.348 * MathSpecial.cube tmp + 27.467 * MathSpecial.powint tmp 4)
  let damp := damp + (-18.022 * MathSpecial.powint tmp 5 + 4.8218 * MathSpecial.powint tmp 6)
  damp

end GranSubModDampingTsuji

namespace DampingTsuji

/-- `DampingTsuji::coeffs_to_local` (contact_damping_models.cpp, lines 63-69):
the damp coefficient computed from `contact->normal_model->damp`, written
exactly as that source accumulates it. -/
def dampOf {F : Type} [Field F] (tmp : F) : F :=
  let damp := 1.2728 - 4.2783 * tmp + 11.087 * MathSpecial.square tmp
  let damp := damp + (-22.348 * MathSpecial.cube tmp + 27.467 * MathSpecial.powint tmp 4)
  let damp := damp + (-18.022 * MathSpecial.powint tmp 5 + 4.8218 * MathSpecial.powint tmp 6)
  damp

end DampingTsuji

namespace PairSMATB

/-- `PairSMATB::settings` (pair_smatb.cpp, lines 273-276): errors out iff
`narg > 0`; on success the pair-style state `s` is returned unchanged.
`none` models `error->all` aborting the run. -/
def settings {σ : Type} (narg : ℕ) (s : σ) : Option σ :=
  if narg > 0 then none else some s

/-- The per-type-pair coefficient tables of `PairSMATB` (pair_smatb.h):
`setflag` and the fourteen `double` arrays created in `allocate()`.  Each
C array `T[i][j]` is a total function of the two 1-based type indices. -/
structure State (F : Type) where
  setflag : ℕ → ℕ → ℤ
  r0 : ℕ → ℕ → F
  p : ℕ → ℕ → F
  A : ℕ → ℕ → F
  q : ℕ → ℕ → F
  QSI : ℕ → ℕ → F
  cutOffStart : ℕ → ℕ → F
  cutOffEnd : ℕ → ℕ → F
  cutOffEnd2 : ℕ → ℕ → F
  a3 : ℕ → ℕ → F
  a4 : ℕ → ℕ → F
  a5 : ℕ → ℕ → F
  x3 : ℕ → ℕ → F
  x4 : ℕ → ℕ → F
  x5 : ℕ → ℕ → F

variable {F : Type} [Field F]

/-- The repulsive-branch polynomial coefficients `(a3, a4, a5)` derived in
`PairSMATB::init_one` (pair_smatb.cpp, lines 380-392) from the raw
parameters of the pair: `es = cutOffEnd - cutOffStart`,
`expp = A * exp(p * (1 - cutOffStart / r0))`, and the three linear
combinations of `ap, bp, cp`.  `e` is the `exp` function. -/
def aCoeffs (e : F → F) (Aij pij r0ij cs ce : F) : F × F × F :=
  let es := ce - cs
  let es2 := es * es
  let es3 := es2 * es
  let expp := Aij * e (pij * (1 - cs / r0ij))
  let ap := -1 / es3
  let bp := pij / (r0ij * es2)
  let cp := -(pij * pij) / (es * r0ij * r0ij)
  (expp * (20 * ap + 8 * bp + cp) / 2,
   expp * (15 * ap + 7 * bp + cp) / es,
   expp * (12 * ap + 6 * bp + cp) / (2 * es2))

/-- The bonding-branch polynomial coefficients `(x3, x4, x5)` derived in
`PairSMATB::init_one` (pair_smatb.cpp, lines 394-402) from
`expq = QSI * exp(q * (1 - cutOffStart / r0))` and `aq, bq, cq`. -/
def xCoeffs (e : F → F) (QSIij qij r0ij cs ce : F) : F × F × F :=
  let es := ce - cs
  let es2 := es * es
  let es3 := es2 * es
  let expq := QSIij * e (qij * (1 - cs / r0ij))
  let aq := -1 / es3
  let bq := qij / (es2 * r0ij)
  let cq := -(qij * qij) / (es * r0ij * r0ij)
  (expq * (20 * aq + 8 * bq + cq) / 2,
   expq * (15 * aq + 7 * bq + cq) / es,
   expq * (12 * aq + 6 * bq + cq) / (2 * es2))

/-- The quintic switching polynomial evaluated in the second branch of both
loops of `PairSMATB::compute` (pair_smatb.cpp, lines 147-152 and 217-228):
`c5 * polyval^5 + c4 * polyval^4 + c3 * polyval^3` with
`polyval = r - cutOffEnd`. -/
def switchPoly (c3 c4 c5 ce r : F) : F :=
  let polyval := r - ce
  c5 * polyval ^ 5 + c4 * polyval ^ 4 + c3 * polyval ^ 3

/-- The first derivative of `switchPoly` in `r`, as it appears inside the
force factors `Fr` and `Fb` of the second loop of `PairSMATB::compute`
(pair_smatb.cpp, lines 224-231):
`5 c5 polyval^4 + 4 c4 polyval^3 + 3 c3 polyval^2`. -/
def switchPolyDeriv (c3 c4 c5 ce r : F) : F :=
  let polyval := r - ce
  5 * c5 * polyval ^ 4 + 4 * c4 * polyval ^ 3 + 3 * c3 * polyval ^ 2

/-- `PairSMATB::init_one(i, j)` (pair_smatb.cpp, lines 370-426).  `e` is the
`exp` function.  If `setflag[i][j] == 0` the run aborts (`none`; the mixing
assignments before `error->all` are dead state of an aborted run and are
not modelled).  Otherwise the six polynomial coefficients and
`cutOffEnd2[i][j]` are derived, and for `i ≠ j` all per-pair entries are
mirrored into `[j][i]`; returns the updated state and `cutOffEnd[i][j]`. -/
def init_one (e : F → F) (s : State F) (i j : ℕ) : Option (State F × F) :=
  if s.setflag i j = 0 then none
  else
    let ac := aCoeffs e (s.A i j) (s.p i j) (s.r0 i j) (s.cutOffStart i j) (s.cutOffEnd i j)
    let xc := xCoeffs e (s.QSI i j) (s.q i j) (s.r0 i j) (s.cutOffStart i j) (s.cutOffEnd i j)
    let s1 : State F :=
      { s with
        a5 := upd2 s.a5 i j ac.2.2
        a4 := upd2 s.a4 i j ac.2.1
        a3 := upd2 s.a3 i j ac.1
        x5 := upd2 s.x5 i j xc.2.2
        x4 := upd2 s.x4 i j xc.2.1
        x3 := upd2 s.x3 i j xc.1
        cutOffEnd2 := upd2 s.cutOffEnd2 i j (s.cutOffEnd i j * s.cutOffEnd i j) }
    let s2 : State F :=
      if i ≠ j then
        { s1 with
          setflag := upd2 s1.setflag j i 1
          cutOffEnd2 := upd2 s1.cutOffEnd2 j i (s1.cutOffEnd2 i j)
          r0 := upd2 s1.r0 j i (s1.r0 i j)
          p := upd2 s1.p j i (s1.p i j)
          q := upd2 s1.q j i (s1.q i j)
          A := upd2 s1.A j i (s1.A i j)
          QSI := upd2 s1.QSI j i (s1.QSI i j)
          cutOffStart := upd2 s1.cutOffStart j i (s1.cutOffStart i j)
          cutOffEnd := upd2 s1.cutOffEnd j i (s1.cutOffEnd i j)
          a3 := upd2 s1.a3 j i (s1.a3 i j)
          a4 := upd2 s1.a4 j i (s1.a4 i j)
          a5 := upd2 s1.a5 j i (s1.a5 i j)
          x3 := upd2 s1.x3 j i (s1.x3 i j)
          x4 := upd2 s1.x4 j i (s1.x4 i j)
          x5 := upd2 s1.x5 j i (s1.x5 i j) }
      else s1
    some (s2, s2.cutOffEnd i j)

end PairSMATB

namespace CPairPOD

/-- `CPairPOD::settings` (pair_pod.cpp, lines 156-160): errors out iff
`narg > 0`; on success the pair-style state `s` is returned unchanged. -/
def settings {σ : Type} (narg : ℕ) (s : σ) : Option σ :=
  if narg > 0 then none else some s

/-- The `CPairPOD` state consulted by its `init_one`: the `setflag` and
`scale` tables and the single model cutoff `podptr->pod.rcut`. -/
structure State (F : Type) where
  setflag : ℕ → ℕ → ℤ
  scale : ℕ → ℕ → F
  rcut : F

/-- `CPairPOD::init_one(i, j)` (pair_pod.cpp, lines 215-220): aborts when
`setflag[i][j] == 0`, otherwise assigns `scale[j][i] = scale[i][j]` and
returns `podptr->pod.rcut`. -/
def init_one {F : Type} (s : State F) (i j : ℕ) : Option (State F × F) :=
  if s.setflag i j = 0 then none
  else some ({ s with scale := upd2 s.scale j i (s.scale i j) }, s.rcut)

end CPairPOD

/-- C10: the Tsuji damping coefficient is computed by the identical
sixth-degree polynomial of the normal model's damp value in both granular
implementations: for every input `t`, `GranSubModDampingTsuji::init` and
`DampingTsuji::coeffs_to_local` produce the same
`damp = 1.2728 - 4.2783 t + 11.087 t² - 22.348 t³ + 27.467 t⁴ - 18.022 t⁵ + 4.8218 t⁶`. -/
theorem tsuji_damping_identical (t : ℝ) :
    GranSubModDampingTsuji.dampOf t = DampingTsuji.dampOf t ∧
    GranSubModDampingTsuji.dampOf t =
      1.2728 - 4.2783 * t + 11.087 * t ^ 2 - 22.348 * t ^ 3 + 27.467 * t ^ 4
        - 18.022 * t ^ 5 + 4.8218 * t ^ 6 := by
  constructor
  · rfl
  · simp only [GranSubModDampingTsuji.dampOf, MathSpecial.square, MathSpecial.cube,
      MathSpecial.powint]
    ring

/-- `switchPoly` has derivative `switchPolyDeriv` everywhere. -/
theorem hasDerivAt_switchPoly (c3 c4 c5 ce r : ℝ) :
    HasDerivAt (fun s => PairSMATB.switchPoly c3 c4 c5 ce s)
      (PairSMATB.switchPolyDeriv c3 c4 c5 ce r) r := by
  have hpv : HasDerivAt (fun s : ℝ => s - ce) 1 r := (hasDerivAt_id r).sub_const ce
  have h5 := (hpv.pow 5).const_mul c5
  have h4 := (hpv.pow 4).const_mul c4
  have h3 := (hpv.pow 3).const_mul c3
  have hsum := (h5.add h4).add h3
  convert hsum using 1
  simp [PairSMATB.switchPolyDeriv]
  ring

/-- The raw exponential branch `A * exp(p * (1 - r / r0))` has derivative
`-(p / r0) * (A * exp(p * (1 - r / r0)))` everywhere. -/
theorem hasDerivAt_rawBranch (Av pv r0v r : ℝ) :
    HasDerivAt (fun s => Av * Real.exp (pv * (1 - s / r0v)))
      (-(pv / r0v) * (Av * Real.exp (pv * (1 - r / r0v)))) r := by
  have h1 : HasDerivAt (fun s : ℝ => s / r0v) (1 / r0v) r :=
    (hasDerivAt_id r).div_const r0v
  have h2 : HasDerivAt (fun s : ℝ => 1 - s / r0v) (-(1 / r0v)) r := h1.const_sub 1
  have h3 := (h2.const_mul pv).exp
  have h4 := h3.const_mul Av
  convert h4 using 1
  ring

/-- Core algebraic identity behind `PairSMATB::init_one`'s coefficient
derivation: coefficients of the shape written there reproduce the boundary
value `E` and boundary slope `-(p/r0) E` at `polyval = -es`. -/
theorem switch_core (E pp r0v es c3v c4v c5v : ℝ) (hes : es ≠ 0) (hr0 : r0v ≠ 0)
    (h5 : c5v = E * (12 * (-1 / (es * es * es)) + 6 * (pp / (r0v * (es * es)))
        + -(pp * pp) / (es * r0v * r0v)) / (2 * (es * es)))
    (h4 : c4v = E * (15 * (-1 / (es * es * es)) + 7 * (pp / (r0v * (es * es)))
        + -(pp * pp) / (es * r0v * r0v)) / es)
    (h3 : c3v = E * (20 * (-1 / (es * es * es)) + 8 * (pp / (r0v * (es * es)))
        + -(pp * pp) / (es * r0v * r0v)) / 2) :
    c5v * (-es) ^ 5 + c4v * (-es) ^ 4 + c3v * (-es) ^ 3 = E ∧
    5 * c5v * (-es) ^ 4 + 4 * c4v * (-es) ^ 3 + 3 * c3v * (-es) ^ 2 = -(pp / r0v) * E := by
  subst h5 h4 h3
  constructor
  · field_simp
    ring
  · field_simp
    ring

/-- C2: for a configured type pair with `cutOffStart < cutOffEnd`, the cubic-
through-quintic switching polynomials with coefficients `(a3, a4, a5)` and
`(x3, x4, x5)` derived in `PairSMATB::init_one` agree in value and first
derivative with the raw exponentials `A*exp(p*(1-r/r0))` and
`QSI*exp(q*(1-r/r0))` at `r = cutOffStart`, and are zero with zero first
derivative at `r = cutOffEnd` (exact real arithmetic), so the force factors
built from them are continuous across both boundaries. -/
theorem smatb_switching_continuity
    (r0v pv qv Av QSIv cs ce a3v a4v a5v x3v x4v x5v : ℝ)
    (hr0 : r0v ≠ 0) (hlt : cs < ce)
    (hac : (a3v, a4v, a5v) = PairSMATB.aCoeffs Real.exp Av pv r0v cs ce)
    (hxc : (x3v, x4v, x5v) = PairSMATB.xCoeffs Real.exp QSIv qv r0v cs ce) :
    PairSMATB.switchPoly a3v a4v a5v ce cs = Av * Real.exp (pv * (1 - cs / r0v)) ∧
    PairSMATB.switchPolyDeriv a3v a4v a5v ce cs
      = -(pv / r0v) * (Av * Real.exp (pv * (1 - cs / r0v))) ∧
    HasDerivAt (fun r => PairSMATB.switchPoly a3v a4v a5v ce r)
      (PairSMATB.switchPolyDeriv a3v a4v a5v ce cs) cs ∧
    HasDerivAt (fun r => Av * Real.exp (pv * (1 - r / r0v)))
      (PairSMATB.switchPolyDeriv a3v a4v a5v ce cs) cs ∧
    PairSMATB.switchPoly a3v a4v a5v ce ce = 0 ∧
    HasDerivAt (fun r => PairSMATB.switchPoly a3v a4v a5v ce r) 0 ce ∧
    PairSMATB.switchPoly x3v x4v x5v ce cs = QSIv * Real.exp (qv * (1 - cs / r0v)) ∧
    PairSMATB.switchPolyDeriv x3v x4v x5v ce cs
      = -(qv / r0v) * (QSIv * Real.exp (qv * (1 - cs / r0v))) ∧
    HasDerivAt (fun r => PairSMATB.switchPoly x3v x4v x5v ce r)
      (PairSMATB.switchPolyDeriv x3v x4v x5v ce cs) cs ∧
    HasDerivAt (fun r => QSIv * Real.exp (qv * (1 - r / r0v)))
      (PairSMATB.switchPolyDeriv x3v x4v x5v ce cs) cs ∧
    PairSMATB.switchPoly x3v x4v x5v ce ce = 0 ∧
    HasDerivAt (fun r => PairSMATB.switchPoly x3v x4v x5v ce r) 0 ce := by
  have hes : ce - cs ≠ 0 := sub_ne_zero.mpr hlt.ne'
  have ha3 : a3v = (PairSMATB.aCoeffs Real.exp Av pv r0v cs ce).1 := by rw [← hac]
  have ha4 : a4v = (PairSMATB.aCoeffs Real.exp Av pv r0v cs ce).2.1 := by rw [← hac]
  have ha5 : a5v = (PairSMATB.aCoeffs Real.exp Av pv r0v cs ce).2.2 := by rw [← hac]
  have hx3 : x3v = (PairSMATB.xCoeffs Real.exp QSIv qv r0v cs ce).1 := by rw [← hxc]
  have hx4 : x4v = (PairSMATB.xCoeffs Real.exp QSIv qv r0v cs ce).2.1 := by rw [← hxc]
  have hx5 : x5v = (PairSMATB.xCoeffs Real.exp QSIv qv r0v cs ce).2.2 := by rw [← hxc]
  have hcoreA := switch_core (Av * Real.exp (pv * (1 - cs / r0v))) pv r0v (ce - cs)
      a3v a4v a5v hes hr0
      (by rw [ha5]; simp only [PairSMATB.aCoeffs]; try ring)
      (by rw [ha4]; simp only [PairSMATB.aCoeffs]; try ring)
      (by rw [ha3]; simp only [PairSMATB.aCoeffs]; try ring)
  have hcoreX := switch_core (QSIv * Real.exp (qv * (1 - cs / r0v))) qv r0v (ce - cs)
      x3v x4v x5v hes hr0
      (by rw [hx5]; simp only [PairSMATB.xCoeffs]; try ring)
      (by rw [hx4]; simp only [PairSMATB.xCoeffs]; try ring)
      (by rw [hx3]; simp only [PairSMATB.xCoeffs]; try ring)
  have hnegA : cs - ce = -(ce - cs) := by ring
  have hvalA : PairSMATB.switchPoly a3v a4v a5v ce cs
      = Av * Real.exp (pv * (1 - cs / r0v)) := by
    simp only [PairSMATB.switchPoly, hnegA]
    exact hcoreA.1
  have hderA : PairSMATB.switchPolyDeriv a3v a4v a5v ce cs
      = -(pv / r0v) * (Av * Real.exp (pv * (1 - cs / r0v))) := by
    simp only [PairSMATB.switchPolyDeriv, hnegA]
    exact hcoreA.2
  have hvalX : PairSMATB.switchPoly x3v x4v x5v ce cs
      = QSIv * Real.exp (qv * (1 - cs / r0v)) := by
    simp only [PairSMATB.switchPoly, hnegA]
    exact hcoreX.1
  have hderX : PairSMATB.switchPolyDeriv x3v x4v x5v ce cs
      = -(qv / r0v) * (QSIv * Real.exp (qv * (1 - cs / r0v))) := by
    simp only [PairSMATB.switchPolyDeriv, hnegA]
    exact hcoreX.2
  have hzeroA : PairSMATB.switchPoly a3v a4v a5v ce ce = 0 := by
    simp [PairSMATB.switchPoly]
  have hzeroX : PairSMATB.switchPoly x3v x4v x5v ce ce = 0 := by
    simp [PairSMATB.switchPoly]
  have hdzeroA : PairSMATB.switchPolyDeriv a3v a4v a5v ce ce = 0 := by
    simp [PairSMATB.switchPolyDeriv]
  have hdzeroX : PairSMATB.switchPolyDeriv x3v x4v x5v ce ce = 0 := by
    simp [PairSMATB.switchPolyDeriv]
  refine ⟨hvalA, hderA, hasDerivAt_switchPoly _ _ _ _ _, ?_, hzeroA, ?_,
    hvalX, hderX, hasDerivAt_switchPoly _ _ _ _ _, ?_, hzeroX, ?_⟩
  · rw [hderA]; exact hasDerivAt_rawBranch Av pv r0v cs
  · have h := hasDerivAt_switchPoly a3v a4v a5v ce ce
    rwa [hdzeroA] at h
  · rw [hderX]; exact hasDerivAt_rawBranch QSIv qv r0v cs
  · have h := hasDerivAt_switchPoly x3v x4v x5v ce ce
    rwa [hdzeroX] at h

/-- Nonvacuity instance for `smatb_switching_continuity` at the concrete
parameters `r0 = 1, p = 1, q = 1, A = 1, QSI = 1, cutOffStart = 1,
cutOffEnd = 2`. -/
theorem smatb_switching_continuity_witness :
    PairSMATB.switchPoly (PairSMATB.aCoeffs Real.exp 1 1 1 1 2).1
      (PairSMATB.aCoeffs Real.exp 1 1 1 1 2).2.1
      (PairSMATB.aCoeffs Real.exp 1 1 1 1 2).2.2 2 1
      = 1 * Real.exp (1 * (1 - 1 / 1)) :=
  (smatb_switching_continuity 1 1 1 1 1 1 2
    (PairSMATB.aCoeffs Real.exp 1 1 1 1 2).1 (PairSMATB.aCoeffs Real.exp 1 1 1 1 2).2.1
    (PairSMATB.aCoeffs Real.exp 1 1 1 1 2).2.2
    (PairSMATB.xCoeffs Real.exp 1 1 1 1 2).1 (PairSMATB.xCoeffs Real.exp 1 1 1 1 2).2.1
    (PairSMATB.xCoeffs Real.exp 1 1 1 1 2).2.2
    (by norm_num) (by norm_num) rfl rfl).1

/-- C9: for both `PairSMATB::settings` and `CPairPOD::settings`, the call
raises a fatal error if and only if `narg > 0`, and when `narg = 0` it
returns the pair-style state unchanged. -/
theorem settings_reject_iff_narg_pos {σ : Type} (narg : ℕ) (s : σ) :
    (PairSMATB.settings narg s = none ↔ 0 < narg) ∧
    (CPairPOD.settings narg s = none ↔ 0 < narg) ∧
    PairSMATB.settings 0 s = some s ∧ CPairPOD.settings 0 s = some s := by
  refine ⟨?_, ?_, rfl, rfl⟩ <;>
    simp [PairSMATB.settings, CPairPOD.settings] <;> omega

/-- Concrete fully-configured `PairSMATB` coefficient state used to
instantiate the symmetry theorem. -/
def sExample : PairSMATB.State ℚ where
  setflag := fun _ _ => 1
  r0 := fun _ _ => 2
  p := fun _ _ => 3
  A := fun _ _ => 5
  q := fun _ _ => 2
  QSI := fun _ _ => 4
  cutOffStart := fun _ _ => 1
  cutOffEnd := fun _ _ => 3
  cutOffEnd2 := fun _ _ => 0
  a3 := fun _ _ => 0
  a4 := fun _ _ => 0
  a5 := fun _ _ => 0
  x3 := fun _ _ => 0
  x4 := fun _ _ => 0
  x5 := fun _ _ => 0

/-- C3: after a successful `PairSMATB::init_one(i, j)`, calling
`init_one(j, i)` on the resulting state succeeds and returns the same
cutoff, every per-pair coefficient table entry is symmetric
(`X[j][i] = X[i][j]` for r0, p, q, A, QSI, cutOffStart, cutOffEnd,
cutOffEnd2, a3..a5, x3..x5), and `CPairPOD::init_one` likewise returns the
order-independent cutoff `rcut` and leaves `scale` symmetric. -/
theorem init_one_symmetry {F : Type} [Field F] (e : F → F)
    (s s1 : PairSMATB.State F) (i j : ℕ) (c : F)
    (h : PairSMATB.init_one e s i j = some (s1, c)) :
    (PairSMATB.init_one e s1 j i).map Prod.snd = some c ∧
    s1.r0 j i = s1.r0 i j ∧ s1.p j i = s1.p i j ∧ s1.q j i = s1.q i j ∧
    s1.A j i = s1.A i j ∧ s1.QSI j i = s1.QSI i j ∧
    s1.cutOffStart j i = s1.cutOffStart i j ∧
    s1.cutOffEnd j i = s1.cutOffEnd i j ∧
    s1.cutOffEnd2 j i = s1.cutOffEnd2 i j ∧
    s1.a3 j i = s1.a3 i j ∧ s1.a4 j i = s1.a4 i j ∧ s1.a5 j i = s1.a5 i j ∧
    s1.x3 j i = s1.x3 i j ∧ s1.x4 j i = s1.x4 i j ∧ s1.x5 j i = s1.x5 i j ∧
    (∀ (t t1 : CPairPOD.State F) (c2 : F),
      CPairPOD.init_one t i j = some (t1, c2) →
      c2 = t.rcut ∧ t1.scale j i = t1.scale i j ∧ t1.rcut = t.rcut) := by
  have hpod : ∀ (t t1 : CPairPOD.State F) (c2 : F),
      CPairPOD.init_one t i j = some (t1, c2) →
      c2 = t.rcut ∧ t1.scale j i = t1.scale i j ∧ t1.rcut = t.rcut := by
    intro t t1 c2 ht
    rw [CPairPOD.init_one] at ht
    by_cases ht0 : t.setflag i j = 0
    · rw [if_pos ht0] at ht
      exact absurd ht (by simp)
    · rw [if_neg ht0] at ht
      simp only [Option.some.injEq, Prod.mk.injEq] at ht
      obtain ⟨h1, h2⟩ := ht
      subst h1
      refine ⟨h2.symm, ?_, rfl⟩
      by_cases hji : i = j
      · subst hji
        simp [upd2]
      · have hji2 : ¬(j = i) := fun hh => hji hh.symm
        simp [upd2, hji, hji2]
  rw [PairSMATB.init_one] at h
  by_cases h0 : s.setflag i j = 0
  · rw [if_pos h0] at h
    exact absurd h (by simp)
  · rw [if_neg h0] at h
    simp only [Option.some.injEq, Prod.mk.injEq] at h
    obtain ⟨hs1, hc⟩ := h
    subst hc
    subst hs1
    by_cases hij : i = j
    · subst hij
      refine ⟨?_, rfl, rfl, rfl, rfl, rfl, rfl, rfl, rfl, rfl, rfl, rfl, rfl,
        rfl, rfl, hpod⟩
      simp [PairSMATB.init_one, h0]
    · have hij2 : ¬(j = i) := fun hh => hij hh.symm
      refine ⟨?_, ?_, ?_, ?_, ?_, ?_, ?_, ?_, ?_, ?_, ?_, ?_, ?_, ?_, ?_, hpod⟩ <;>
        simp [PairSMATB.init_one, upd2, hij, hij2, h0]

/-- Nonvacuity instance for `init_one_symmetry`: on the concrete state
`sExample` with `exp` instantiated as `id : ℚ → ℚ`, `init_one(1, 2)`
succeeds, the follow-up `init_one(2, 1)` returns the same cutoff, and the
`r0` table ends up symmetric. -/
theorem init_one_symmetry_witness :
    (PairSMATB.init_one (id : ℚ → ℚ) sExample 1 2).elim False
      (fun pr => (PairSMATB.init_one (id : ℚ → ℚ) pr.1 2 1).map Prod.snd = some pr.2
        ∧ pr.1.r0 2 1 = pr.1.r0 1 2) := by
  cases hEq : PairSMATB.init_one (id : ℚ → ℚ) sExample 1 2 with
  | none => simp [PairSMATB.init_one, sExample] at hEq
  | some pr =>
    have h := init_one_symmetry (id : ℚ → ℚ) sExample pr.1 1 2 pr.2 (by rw [hEq])
    exact ⟨h.1, h.2.1⟩

namespace NStencilFullMultiOld3d

/-- Ascending enumeration of the symmetric integer range `-s..s`, modelling
the C loop header `for (t = -s; t <= s; t++)`. -/
def rangeSym (s : ℕ) : List ℤ :=
  (List.range (2 * s + 1)).map (fun (t : ℕ) => (t : ℤ) - (s : ℤ))

/-- The `(i, j, k)` enumeration order of the triple loop in
`NStencilFullMultiOld3d::create` (nstencil_full_multi_old_3d.cpp, lines
40-42): `k` outermost, then `j`, then `i` innermost, each ascending. -/
def stencilOffsets (sx sy sz : ℕ) : List (ℤ × ℤ × ℤ) :=
  (rangeSym sz).flatMap fun k =>
    (rangeSym sy).flatMap fun j =>
      (rangeSym sx).map fun i => (i, j, k)

/-- The bin geometry and per-type squared cutoffs that
`NStencilFullMultiOld3d::create` reads from its base class. -/
structure Geom (F : Type) where
  sx : ℕ
  sy : ℕ
  sz : ℕ
  mbinx : ℤ
  mbiny : ℤ
  cuttypesq : ℕ → F

/-- The per-type loop body of `NStencilFullMultiOld3d::create`
(nstencil_full_multi_old_3d.cpp, lines 35-49): every offset `(i, j, k)` of
the triple loop with `bin_distance(i,j,k) < cuttypesq[itype]` is appended,
in loop order, as the pair (offset, distance) written into
`stencil_multi_old[itype][n]` / `distsq_multi_old[itype][n]`.  The
base-class function `bin_distance` is the parameter `bd`. -/
def createType {F : Type} [LinearOrder F] (bd : ℤ → ℤ → ℤ → F) (g : Geom F)
    (itype : ℕ) : List ((ℤ × ℤ × ℤ) × F) :=
  (stencilOffsets g.sx g.sy g.sz).filterMap fun o =>
    if bd o.1 o.2.1 o.2.2 < g.cuttypesq itype then some (o, bd o.1 o.2.1 o.2.2)
    else none

/-- The `distsq_multi_old[itype]` array filled by `create`, in storage
order. -/
def distsq_multi_old {F : Type} [LinearOrder F] (bd : ℤ → ℤ → ℤ → F)
    (g : Geom F) (itype : ℕ) : List F :=
  (createType bd g itype).map Prod.snd

/-- The `stencil_multi_old[itype]` array filled by `create`:
`s[n] = k * mbiny * mbinx + j * mbinx + i` in storage order. -/
def stencil_multi_old {F : Type} [LinearOrder F] (bd : ℤ → ℤ → ℤ → F)
    (g : Geom F) (itype : ℕ) : List ℤ :=
  (createType bd g itype).map fun o => o.1.2.2 * g.mbiny * g.mbinx + o.1.2.1 * g.mbinx + o.1.1

/-- The `nstencil_multi_old[itype]` count set by `create`. -/
def nstencil_multi_old {F : Type} [LinearOrder F] (bd : ℤ → ℤ → ℤ → F)
    (g : Geom F) (itype : ℕ) : ℕ :=
  (createType bd g itype).length

/-- Modelled from the spec: `NStencil::bin_distance(i, j, k)` is declared in
the `NStencil` base class, whose implementation file is not part of this
excerpt.  Per the spec the stencil stores with each bin offset the
"minimum-possible-squared-distance" from the reference bin to the bin
offset by `(i, j, k)`, for bin edge lengths `(bsx, bsy, bsz)`: along each
axis the nearest faces of the two bins are `(|i| - 1) * binsize` apart when
`|i| ≥ 1` and `0` when the offset is zero, and the minimum squared distance
is the sum of the squared per-axis gaps. -/
def bin_distance (bsx bsy bsz : ℚ) (i j k : ℤ) : ℚ :=
  let delx : ℚ := if 0 < i then ((i - 1 : ℤ) : ℚ) * bsx
    else if i = 0 then 0 else ((i + 1 : ℤ) : ℚ) * bsx
  let dely : ℚ := if 0 < j then ((j - 1 : ℤ) : ℚ) * bsy
    else if j = 0 then 0 else ((j + 1 : ℤ) : ℚ) * bsy
  let delz : ℚ := if 0 < k then ((k - 1 : ℤ) : ℚ) * bsz
    else if k = 0 then 0 else ((k + 1 : ℤ) : ℚ) * bsz
  delx * delx + dely * dely + delz * delz

/-- Concrete bin geometry on which the stored distance sequence of
`create` is visibly not sorted: a 5-bin-wide one-dimensional stencil. -/
def gExample : Geom ℚ where
  sx := 2
  sy := 0
  sz := 0
  mbinx := 10
  mbiny := 10
  cuttypesq := fun _ => 10

end NStencilFullMultiOld3d

theorem mem_rangeSym (s : ℕ) (t : ℤ) :
    t ∈ NStencilFullMultiOld3d.rangeSym s ↔ |t| ≤ (s : ℤ) := by
  rw [NStencilFullMultiOld3d.rangeSym, List.mem_map]
  constructor
  · rintro ⟨a, ha, rfl⟩
    rw [List.mem_range] at ha
    rw [abs_le]
    constructor <;> omega
  · intro h
    rw [abs_le] at h
    refine ⟨(t + s).toNat, ?_, ?_⟩
    · rw [List.mem_range]
      omega
    · omega

theorem mem_stencilOffsets (sx sy sz : ℕ) (o : ℤ × ℤ × ℤ) :
    o ∈ NStencilFullMultiOld3d.stencilOffsets sx sy sz ↔
      |o.1| ≤ (sx : ℤ) ∧ |o.2.1| ≤ (sy : ℤ) ∧ |o.2.2| ≤ (sz : ℤ) := by
  rw [NStencilFullMultiOld3d.stencilOffsets]
  simp only [List.mem_flatMap, List.mem_map]
  constructor
  · rintro ⟨k, hk, j, hj, i, hi, rfl⟩
    rw [mem_rangeSym] at hk hj hi
    exact ⟨hi, hj, hk⟩
  · rintro ⟨h1, h2, h3⟩
    exact ⟨o.2.2, (mem_rangeSym _ _).mpr h3, o.2.1, (mem_rangeSym _ _).mpr h2,
      o.1, (mem_rangeSym _ _).mpr h1, rfl⟩

theorem createType_eq_filter {F : Type} [LinearOrder F]
    (bd : ℤ → ℤ → ℤ → F) (g : NStencilFullMultiOld3d.Geom F) (itype : ℕ) :
    NStencilFullMultiOld3d.createType bd g itype
      = ((NStencilFullMultiOld3d.stencilOffsets g.sx g.sy g.sz).filter
          (fun o => decide (bd o.1 o.2.1 o.2.2 < g.cuttypesq itype))).map
          (fun o => (o, bd o.1 o.2.1 o.2.2)) := by
  rw [NStencilFullMultiOld3d.createType]
  induction NStencilFullMultiOld3d.stencilOffsets g.sx g.sy g.sz with
  | nil => rfl
  | cons a t ih =>
    by_cases h : bd a.1 a.2.1 a.2.2 < g.cuttypesq itype <;>
      simp [List.filterMap_cons, List.filter_cons, h, ih]

/-- C5: after `NStencilFullMultiOld3d::create()`, the stencil for a type
contains an entry for exactly those bin offsets `(i, j, k)` with
`|i| ≤ sx`, `|j| ≤ sy`, `|k| ≤ sz` whose `bin_distance(i, j, k)` is
strictly below `cuttypesq[itype]` — so every bin that could contain an
atom within that type's cutoff of the reference bin is reachable through
the stencil.  The base-class `bin_distance` is universally quantified. -/
theorem stencil_contains_iff {F : Type} [LinearOrder F]
    (bd : ℤ → ℤ → ℤ → F) (g : NStencilFullMultiOld3d.Geom F) (itype : ℕ)
    (i j k : ℤ) :
    (i, j, k) ∈ (NStencilFullMultiOld3d.createType bd g itype).map Prod.fst ↔
      |i| ≤ (g.sx : ℤ) ∧ |j| ≤ (g.sy : ℤ) ∧ |k| ≤ (g.sz : ℤ) ∧
        bd i j k < g.cuttypesq itype := by
  rw [createType_eq_filter, List.map_map]
  simp only [Function.comp, List.mem_map, List.mem_filter, mem_stencilOffsets,
    decide_eq_true_eq]
  constructor
  · rintro ⟨a, ⟨⟨b1, b2, b3⟩, hlt⟩, rfl⟩
    exact ⟨b1, b2, b3, hlt⟩
  · rintro ⟨h1, h2, h3, h4⟩
    exact ⟨(i, j, k), ⟨⟨h1, h2, h3⟩, h4⟩, rfl⟩

/-- C6 counterexample: on the concrete geometry `gExample` (a 1-d stencil
of half-width 2 with unit bins and squared cutoff 10) the stored
`distsq_multi_old` sequence of `create` is `[1, 0, 0, 0, 1]`, which is not
nondecreasing. -/
theorem stencil_distsq_not_sorted :
    ¬ (NStencilFullMultiOld3d.distsq_multi_old
        (NStencilFullMultiOld3d.bin_distance 1 1 1)
        NStencilFullMultiOld3d.gExample 1).Sorted (· ≤ ·) := by
  have h1 : NStencilFullMultiOld3d.stencilOffsets 2 0 0
      = [(-2, 0, 0), (-1, 0, 0), (0, 0, 0), (1, 0, 0), (2, 0, 0)] := by decide
  have h2 : NStencilFullMultiOld3d.distsq_multi_old
      (NStencilFullMultiOld3d.bin_distance 1 1 1)
      NStencilFullMultiOld3d.gExample 1 = [1, 0, 0, 0, 1] := by
    rw [NStencilFullMultiOld3d.distsq_multi_old, NStencilFullMultiOld3d.createType]
    norm_num [NStencilFullMultiOld3d.gExample, h1, NStencilFullMultiOld3d.bin_distance,
      List.filterMap_cons]
  rw [h2]
  simp [List.Sorted]

/-- C6 amended: after `NStencilFullMultiOld3d::create()` the stencil
entries for each type are stored in nested-loop order (`k`, then `j`, then
`i`, each ascending) filtered by the cutoff test, with
`distsq_multi_old[itype][n]` holding `bin_distance` of the `n`-th kept
offset in exactly that order; the sequence is not sorted by distance. -/
theorem stencil_distsq_loop_order {F : Type} [LinearOrder F]
    (bd : ℤ → ℤ → ℤ → F) (g : NStencilFullMultiOld3d.Geom F) (itype : ℕ) :
    NStencilFullMultiOld3d.distsq_multi_old bd g itype
      = ((NStencilFullMultiOld3d.stencilOffsets g.sx g.sy g.sz).filter
          (fun o => decide (bd o.1 o.2.1 o.2.2 < g.cuttypesq itype))).map
          (fun o => bd o.1 o.2.1 o.2.2) ∧
    (NStencilFullMultiOld3d.createType bd g itype).map Prod.fst
      = (NStencilFullMultiOld3d.stencilOffsets g.sx g.sy g.sz).filter
          (fun o => decide (bd o.1 o.2.1 o.2.2 < g.cuttypesq itype)) := by
  constructor
  · rw [NStencilFullMultiOld3d.distsq_multi_old, createType_eq_filter, List.map_map]
    rfl
  · rw [createType_eq_filter, List.map_map]
    have hcomp : (Prod.fst ∘ fun (o : ℤ × ℤ × ℤ) => (o, bd o.1 o.2.1 o.2.2))
        = id := rfl
    rw [hcomp, List.map_id]

namespace PairSMATB

/-- One `fwrite`/`fread` record of the `PairSMATB` restart coefficient
stream: either a `setflag` value written as a C `int`, or one `double`
parameter. -/
inductive RItem (F : Type) where
  | flagI : ℤ → RItem F
  | dblI : F → RItem F

/-- Native byte width of each record as written by `write_restart`:
`fwrite(&setflag[i][j], sizeof(int), 1, fp)` and
`fwrite(&param, sizeof(double), 1, fp)`, with `sizeof(int) = 4` and
`sizeof(double) = 8` on the ILP32/LP64 platforms LAMMPS supports. -/
def rItemBytes {F : Type} : RItem F → ℕ
  | .flagI _ => 4
  | .dblI _ => 8

/-- The upper-triangular type-pair traversal
`for (i = 1; i <= ntypes; i++) for (j = i; j <= ntypes; j++)` shared by
`write_restart` and `read_restart`. -/
def upperPairs (n : ℕ) : List (ℕ × ℕ) :=
  (List.range n).flatMap fun a =>
    (List.range (n - a)).map fun b => (a + 1, a + 1 + b)

variable {F : Type} [Field F]

/-- The block `write_restart` (pair_smatb.cpp, lines 504-516) emits for one
pair `(i, j)`: the `setflag` int, then — only when the flag is set — the
seven doubles in the fixed order r0, p, q, A, QSI, cutOffStart, cutOffEnd. -/
def writePairBlock (s : State F) (i j : ℕ) : List (RItem F) :=
  RItem.flagI (s.setflag i j) ::
    (if s.setflag i j ≠ 0 then
      [RItem.dblI (s.r0 i j), RItem.dblI (s.p i j), RItem.dblI (s.q i j),
       RItem.dblI (s.A i j), RItem.dblI (s.QSI i j),
       RItem.dblI (s.cutOffStart i j), RItem.dblI (s.cutOffEnd i j)]
     else [])

/-- `PairSMATB::write_restart` (pair_smatb.cpp, lines 499-518), coefficient
part (the `write_restart_settings` preamble is handled separately by the
caller): the per-pair blocks concatenated in increasing `(i, j ≥ i)`
order. -/
def write_restart (n : ℕ) (s : State F) : List (RItem F) :=
  (upperPairs n).flatMap fun ij => writePairBlock s ij.1 ij.2

/-- The seven-double tail read of `read_restart` for a pair whose flag `v`
is set: consumes r0, p, q, A, QSI, cutOffStart, cutOffEnd in that order.
`none` models a truncated/malformed stream (a failing `fread`). -/
def readParams (st : State F) (i j : ℕ) (v : ℤ) :
    List (RItem F) → Option (State F × List (RItem F))
  | RItem.dblI vr0 :: RItem.dblI vp :: RItem.dblI vq :: RItem.dblI vA ::
    RItem.dblI vQ :: RItem.dblI vcs :: RItem.dblI vce :: rest2 =>
    some ({ st with
            setflag := upd2 st.setflag i j v
            r0 := upd2 st.r0 i j vr0
            p := upd2 st.p i j vp
            q := upd2 st.q i j vq
            A := upd2 st.A i j vA
            QSI := upd2 st.QSI i j vQ
            cutOffStart := upd2 st.cutOffStart i j vcs
            cutOffEnd := upd2 st.cutOffEnd i j vce }, rest2)
  | _ => none

/-- The per-pair step of `read_restart` (pair_smatb.cpp, lines 528-550):
consume the flag int into `setflag[i][j]`, and if it is nonzero consume
the seven doubles via `readParams`. -/
def readPairBlock (st : State F) (i j : ℕ) :
    List (RItem F) → Option (State F × List (RItem F))
  | RItem.flagI v :: rest =>
    if v ≠ 0 then readParams st i j v rest
    else some ({ st with setflag := upd2 st.setflag i j v }, rest)
  | _ => none

/-- `read_restart`'s traversal over a pair list, threading the state and the
remaining stream. -/
def readPairsFrom (st : State F) :
    List (ℕ × ℕ) → List (RItem F) → Option (State F × List (RItem F))
  | [], toks => some (st, toks)
  | ij :: rest, toks =>
    match readPairBlock st ij.1 ij.2 toks with
    | none => none
    | some (st1, toks1) => readPairsFrom st1 rest toks1

/-- `PairSMATB::read_restart` (pair_smatb.cpp, lines 520-551), coefficient
part: consumes the stream in increasing `(i, j ≥ i)` order and returns the
filled state together with whatever is left of the stream. -/
def read_restart (n : ℕ) (st : State F) (toks : List (RItem F)) :
    Option (State F × List (RItem F)) :=
  readPairsFrom st (upperPairs n) toks

/-- The effect of reading back one written pair block: `setflag[i][j]` and,
when set, the seven parameters are copied from the source state `s` into
the destination state. -/
def patchPair (s st : State F) (i j : ℕ) : State F :=
  if s.setflag i j ≠ 0 then
    { st with
      setflag := upd2 st.setflag i j (s.setflag i j)
      r0 := upd2 st.r0 i j (s.r0 i j)
      p := upd2 st.p i j (s.p i j)
      q := upd2 st.q i j (s.q i j)
      A := upd2 st.A i j (s.A i j)
      QSI := upd2 st.QSI i j (s.QSI i j)
      cutOffStart := upd2 st.cutOffStart i j (s.cutOffStart i j)
      cutOffEnd := upd2 st.cutOffEnd i j (s.cutOffEnd i j) }
  else { st with setflag := upd2 st.setflag i j (s.setflag i j) }

/-- `patchPair` folded over a pair list. -/
def patchPairs (s : State F) : State F → List (ℕ × ℕ) → State F
  | st, [] => st
  | st, ij :: rest => patchPairs s (patchPair s st ij.1 ij.2) rest

/-- The destination state `t` holds the source state `s`'s restart data for
pair `(i, j)`: the flag, and the seven parameters whenever the flag is
set. -/
def agreesAt (s t : State F) (i j : ℕ) : Prop :=
  t.setflag i j = s.setflag i j ∧
  (s.setflag i j ≠ 0 →
    t.r0 i j = s.r0 i j ∧ t.p i j = s.p i j ∧ t.q i j = s.q i j ∧
    t.A i j = s.A i j ∧ t.QSI i j = s.QSI i j ∧
    t.cutOffStart i j = s.cutOffStart i j ∧ t.cutOffEnd i j = s.cutOffEnd i j)

/-- States `t` and `u` have identical restart-relevant entries at `(a, b)`. -/
def entryEq (t u : State F) (a b : ℕ) : Prop :=
  t.setflag a b = u.setflag a b ∧ t.r0 a b = u.r0 a b ∧ t.p a b = u.p a b ∧
  t.q a b = u.q a b ∧ t.A a b = u.A a b ∧ t.QSI a b = u.QSI a b ∧
  t.cutOffStart a b = u.cutOffStart a b ∧ t.cutOffEnd a b = u.cutOffEnd a b

end PairSMATB

theorem readPairBlock_write {F : Type} [Field F] (s st : PairSMATB.State F)
    (i j : ℕ) (rest : List (PairSMATB.RItem F)) :
    PairSMATB.readPairBlock st i j (PairSMATB.writePairBlock s i j ++ rest)
      = some (PairSMATB.patchPair s st i j, rest) := by
  rw [PairSMATB.writePairBlock, PairSMATB.patchPair]
  by_cases h : s.setflag i j ≠ 0
  · rw [if_pos h, if_pos h]
    simp only [List.cons_append, List.nil_append]
    rw [PairSMATB.readPairBlock, if_pos h, PairSMATB.readParams]
  · rw [if_neg h, if_neg h]
    simp only [List.cons_append, List.nil_append]
    rw [PairSMATB.readPairBlock, if_neg h]

theorem readPairsFrom_write {F : Type} [Field F] (s : PairSMATB.State F)
    (ps : List (ℕ × ℕ)) :
    ∀ (st : PairSMATB.State F) (extra : List (PairSMATB.RItem F)),
    PairSMATB.readPairsFrom st ps
        ((ps.flatMap fun ij => PairSMATB.writePairBlock s ij.1 ij.2) ++ extra)
      = some (PairSMATB.patchPairs s st ps, extra) := by
  induction ps with
  | nil =>
    intro st extra
    rw [PairSMATB.readPairsFrom, PairSMATB.patchPairs]
    simp
  | cons q rest ih =>
    intro st extra
    rw [PairSMATB.readPairsFrom, PairSMATB.patchPairs]
    rw [List.flatMap_cons, List.append_assoc, readPairBlock_write]
    exact ih _ _

theorem patchPair_agreesAt {F : Type} [Field F] (s st : PairSMATB.State F)
    (i j : ℕ) : PairSMATB.agreesAt s (PairSMATB.patchPair s st i j) i j := by
  rw [PairSMATB.agreesAt, PairSMATB.patchPair]
  by_cases h : s.setflag i j ≠ 0
  · rw [if_pos h]
    refine ⟨upd2_same _ _ _ _, fun _ => ?_⟩
    exact ⟨upd2_same _ _ _ _, upd2_same _ _ _ _, upd2_same _ _ _ _,
      upd2_same _ _ _ _, upd2_same _ _ _ _, upd2_same _ _ _ _, upd2_same _ _ _ _⟩
  · rw [if_neg h]
    exact ⟨upd2_same _ _ _ _, fun hc => absurd hc h⟩

theorem patchPair_entryEq {F : Type} [Field F] (s st : PairSMATB.State F)
    (i j a b : ℕ) (h : ¬(a = i ∧ b = j)) :
    PairSMATB.entryEq (PairSMATB.patchPair s st i j) st a b := by
  rw [PairSMATB.entryEq, PairSMATB.patchPair]
  by_cases hf : s.setflag i j ≠ 0
  · rw [if_pos hf]
    exact ⟨upd2_other _ _ _ _ _ _ h, upd2_other _ _ _ _ _ _ h,
      upd2_other _ _ _ _ _ _ h, upd2_other _ _ _ _ _ _ h,
      upd2_other _ _ _ _ _ _ h, upd2_other _ _ _ _ _ _ h,
      upd2_other _ _ _ _ _ _ h, upd2_other _ _ _ _ _ _ h⟩
  · rw [if_neg hf]
    exact ⟨upd2_other _ _ _ _ _ _ h, rfl, rfl, rfl, rfl, rfl, rfl, rfl⟩

theorem entryEq_trans {F : Type} [Field F] {t u v : PairSMATB.State F}
    {a b : ℕ} (h1 : PairSMATB.entryEq t u a b) (h2 : PairSMATB.entryEq u v a b) :
    PairSMATB.entryEq t v a b := by
  obtain ⟨e1, e2, e3, e4, e5, e6, e7, e8⟩ := h1
  obtain ⟨f1, f2, f3, f4, f5, f6, f7, f8⟩ := h2
  exact ⟨e1.trans f1, e2.trans f2, e3.trans f3, e4.trans f4, e5.trans f5,
    e6.trans f6, e7.trans f7, e8.trans f8⟩

theorem patchPairs_entryEq {F : Type} [Field F] (s : PairSMATB.State F)
    (ps : List (ℕ × ℕ)) :
    ∀ (st : PairSMATB.State F) (a b : ℕ), (a, b) ∉ ps →
    PairSMATB.entryEq (PairSMATB.patchPairs s st ps) st a b := by
  induction ps with
  | nil =>
    intro st a b _
    rw [PairSMATB.patchPairs]
    exact ⟨rfl, rfl, rfl, rfl, rfl, rfl, rfl, rfl⟩
  | cons q rest ih =>
    intro st a b hmem
    rw [List.mem_cons] at hmem
    push_neg at hmem
    rw [PairSMATB.patchPairs]
    refine entryEq_trans (ih _ a b hmem.2) (patchPair_entryEq s st q.1 q.2 a b ?_)
    rintro ⟨rfl, rfl⟩
    exact hmem.1 rfl

theorem agreesAt_of_entryEq {F : Type} [Field F] {s t u : PairSMATB.State F}
    {i j : ℕ} (he : PairSMATB.entryEq t u i j) (ha : PairSMATB.agreesAt s u i j) :
    PairSMATB.agreesAt s t i j := by
  obtain ⟨e1, e2, e3, e4, e5, e6, e7, e8⟩ := he
  obtain ⟨a1, a2⟩ := ha
  refine ⟨e1.trans a1, fun hf => ?_⟩
  obtain ⟨b1, b2, b3, b4, b5, b6, b7⟩ := a2 hf
  exact ⟨e2.trans b1, e3.trans b2, e4.trans b3, e5.trans b4, e6.trans b5,
    e7.trans b6, e8.trans b7⟩

theorem patchPairs_agreesAt {F : Type} [Field F] (s : PairSMATB.State F)
    (ps : List (ℕ × ℕ)) :
    ∀ (st : PairSMATB.State F) (i j : ℕ), (i, j) ∈ ps →
    PairSMATB.agreesAt s (PairSMATB.patchPairs s st ps) i j := by
  induction ps with
  | nil =>
    intro st i j hmem
    exact absurd hmem (List.not_mem_nil _)
  | cons q rest ih =>
    intro st i j hmem
    rw [PairSMATB.patchPairs]
    by_cases hrest : (i, j) ∈ rest
    · exact ih _ i j hrest
    · have hq : q = (i, j) := by
        rw [List.mem_cons] at hmem
        rcases hmem with h | h
        · exact h.symm
        · exact absurd h hrest
      subst hq
      exact agreesAt_of_entryEq (patchPairs_entryEq s rest _ i j hrest)
        (patchPair_agreesAt s st i j)

/-- C8 amended: `PairSMATB::write_restart` emits, for each type pair
`(i, j)` with `1 ≤ i ≤ j ≤ ntypes` in increasing `(i, j ≥ i)` order, a
has-coefficients flag occupying one native int (`sizeof(int)` = 4 bytes,
not 1), followed, only when the flag is set, by the fixed-order sequence of
double-precision parameters (r0, p, q, A, QSI, cutOffStart, cutOffEnd);
`read_restart` consumes exactly this layout in the same order, leaving
nothing of the stream and reproducing the written data for every
upper-triangular pair. -/
theorem write_read_restart_layout {F : Type} [Field F]
    (n : ℕ) (s st0 : PairSMATB.State F) :
    PairSMATB.read_restart n st0 (PairSMATB.write_restart n s)
      = some (PairSMATB.patchPairs s st0 (PairSMATB.upperPairs n), []) ∧
    (∀ ij ∈ PairSMATB.upperPairs n,
      PairSMATB.agreesAt s (PairSMATB.patchPairs s st0 (PairSMATB.upperPairs n))
        ij.1 ij.2) ∧
    (∀ z : ℤ, PairSMATB.rItemBytes (PairSMATB.RItem.flagI (F := F) z) = 4) ∧
    (∀ v : F, PairSMATB.rItemBytes (PairSMATB.RItem.dblI v) = 8) := by
  refine ⟨?_, ?_, fun _ => rfl, fun _ => rfl⟩
  · have h := readPairsFrom_write s (PairSMATB.upperPairs n) st0 []
    rw [List.append_nil] at h
    exact h
  · intro ij hij
    exact patchPairs_agreesAt s (PairSMATB.upperPairs n) st0 ij.1 ij.2
      (by rwa [Prod.mk.eta])

/-- C8 counterexample: the has-coefficients flag record does not occupy one
byte — on the concrete one-type state `sExample` the stream written by
`write_restart` has record widths `[4, 8, 8, 8, 8, 8, 8, 8]`, the flag
occupying `sizeof(int)` = 4 bytes. -/
theorem write_restart_flag_not_one_byte :
    (PairSMATB.write_restart 1 sExample).map PairSMATB.rItemBytes
      = [4, 8, 8, 8, 8, 8, 8, 8] ∧ (4 : ℕ) ≠ 1 := by
  constructor
  · decide
  · decide

/-- Nonvacuity instance for `write_read_restart_layout` on the concrete
one-type state `sExample`: the read-back succeeds and the pair `(1, 1)`
agrees with the written data. -/
theorem write_read_restart_layout_witness :
    (PairSMATB.read_restart 1 sExample (PairSMATB.write_restart 1 sExample)).isSome
      = true ∧
    PairSMATB.agreesAt sExample
      (PairSMATB.patchPairs sExample sExample (PairSMATB.upperPairs 1)) 1 1 := by
  have h := write_read_restart_layout (F := ℚ) 1 sExample sExample
  constructor
  · rw [h.1]
    rfl
  · exact h.2.1 (1, 1) (by decide)

namespace PairSMATB

/-- The per-timestep inputs `PairSMATB::compute` reads besides the
coefficient tables: atom counts, positions, types, the neighbor list
(`ilist` / `firstneigh`), the `newton_pair` flag, and — for the
communication model — the owning local index of each ghost atom. -/
structure Config (F : Type) where
  nlocal : ℕ
  nghost : ℕ
  x : ℕ → Fin 3 → F
  atomType : ℕ → ℕ
  ilist : List ℕ
  neigh : ℕ → List ℕ
  newton_pair : Bool
  ghostOwner : ℕ → ℕ

/-- `nall = nlocal + atom->nghost` (pair_smatb.cpp, line 105). -/
def Config.nall {F : Type} (cfg : Config F) : ℕ := cfg.nlocal + cfg.nghost

variable {F : Type} [Field F] [LinearOrder F]

/-- `del[0]*del[0] + del[1]*del[1] + del[2]*del[2]` for the pair `(i, j)`,
as computed in both loops of `compute`. -/
def dijsqOf (x : ℕ → Fin 3 → F) (i j : ℕ) : F :=
  (x i 0 - x j 0) * (x i 0 - x j 0) + (x i 1 - x j 1) * (x i 1 - x j 1) +
    (x i 2 - x j 2) * (x i 2 - x j 2)

/-- The `memset(on_eb, 0, m * sizeof(on_eb[0]))` of `compute` (lines
109-114): zeroes the first `m` accumulator entries and leaves the rest. -/
def zeroFirst (m : ℕ) (eb : ℕ → F) : ℕ → F :=
  fun a => if a < m then 0 else eb a

/-- One inner-loop iteration of the FIRST LOOP of `compute` (lines 132-159):
if the pair `(i, j)` is inside `cutOffEnd2`, the squared bonding term
`qsiexpq` (exponential branch under `cutOffStart`, squared switching
polynomial above it) is accumulated into both `on_eb[i]` and `on_eb[j]`.
`sq` and `e` are the `sqrt` and `exp` functions. -/
def pass1Pair (sq e : F → F) (st : State F) (cfg : Config F) (i : ℕ)
    (eb : ℕ → F) (j : ℕ) : ℕ → F :=
  let itype := cfg.atomType i
  let jtype := cfg.atomType j
  let dijsq := dijsqOf cfg.x i j
  if dijsq < st.cutOffEnd2 itype jtype then
    let dij := sq dijsq
    let qsiexpq :=
      if dij < st.cutOffStart itype jtype then
        (st.QSI itype jtype * st.QSI itype jtype) *
          e (2 * st.q itype jtype * (1 - dij / st.r0 itype jtype))
      else
        let v := switchPoly (st.x3 itype jtype) (st.x4 itype jtype)
          (st.x5 itype jtype) (st.cutOffEnd itype jtype) dij
        v * v
    let eb1 := upd1 eb i (eb i + qsiexpq)
    upd1 eb1 j (eb1 j + qsiexpq)
  else eb

/-- The FIRST LOOP body for one atom `i` of `ilist`. -/
def pass1Atom (sq e : F → F) (st : State F) (cfg : Config F) (eb : ℕ → F)
    (i : ℕ) : ℕ → F :=
  (cfg.neigh i).foldl (pass1Pair sq e st cfg i) eb

/-- The complete FIRST LOOP of `compute` (lines 123-161). -/
def pass1 (sq e : F → F) (st : State F) (cfg : Config F) (eb : ℕ → F) :
    ℕ → F :=
  cfg.ilist.foldl (pass1Atom sq e st cfg) eb

/-- Modelled from the spec: `comm->reverse_comm_pair(this)` (line 165) is
the communication layer's reverse_exchange (ghost → owner accumulation),
whose implementation (comm.cpp) is outside the excerpt.  It applies this
pair style's `pack_reverse_comm` (lines 455-463, reading `on_eb` of each
ghost) and `unpack_reverse_comm` (lines 467-475, `on_eb[list[m]] += buf[m]`
on the owner): each ghost index `g ∈ [nlocal, nall)` adds its accumulator
into its owner `ghostOwner g`. -/
def reverseCommOnEb (cfg : Config F) (eb : ℕ → F) : ℕ → F :=
  ((List.range cfg.nghost).map (fun t => cfg.nlocal + t)).foldl
    (fun acc g => upd1 acc (cfg.ghostOwner g) (acc (cfg.ghostOwner g) + acc g)) eb

/-- One iteration of the Support Loop of `compute` (lines 170-185), energy
tallies omitted (they never write `on_eb` or `f`): for a local atom,
`on_eb[i]` becomes `1 / sqrt(on_eb[i])`, or `0` when the root is zero. -/
def supportAtom (sq : F → F) (cfg : Config F) (eb : ℕ → F) (i : ℕ) : ℕ → F :=
  if i < cfg.nlocal then
    let eb_i := sq (eb i)
    if eb_i ≠ 0 then upd1 eb i (1 / eb_i) else upd1 eb i 0
  else eb

/-- The complete Support Loop of `compute`. -/
def supportLoop (sq : F → F) (cfg : Config F) (eb : ℕ → F) : ℕ → F :=
  cfg.ilist.foldl (supportAtom sq cfg) eb

/-- Modelled from the spec: `comm->forward_comm_pair(this)` (line 187) is
the communication layer's forward_exchange (owner → ghost copy), outside
the excerpt.  It applies `pack_forward_comm` (lines 430-440, reading
`on_eb` of the owner) and `unpack_forward_comm` (lines 444-451,
`on_eb[i] = buf[m]` on the ghost): each ghost entry is overwritten with its
owner's value. -/
def forwardCommOnEb (cfg : Config F) (eb : ℕ → F) : ℕ → F :=
  fun a => if cfg.nlocal ≤ a ∧ a < cfg.nall then eb (cfg.ghostOwner a) else eb a

/-- Pointwise update of the force array at atom `a`. -/
def updF (f : ℕ → Fin 3 → F) (a : ℕ) (g : Fin 3 → F) : ℕ → Fin 3 → F :=
  fun b => if b = a then g else f b

/-- One inner-loop iteration of the SECOND LOOP of `compute` (lines
198-264), force path (energy and virial tallies omitted): inside
`cutOffEnd2` the force factors `Fr` and `Fb` are formed (exponential
branch under `cutOffStart`, switching-polynomial branch above it),
`fpair = (Fb * (on_eb[i] + on_eb[j]) + Fr) / dij`, `del * fpair` is added
to `f[i]`, and subtracted from `f[j]` iff `newton_pair || j < nlocal`. -/
def pass2Pair (sq e : F → F) (st : State F) (cfg : Config F) (eb : ℕ → F)
    (i : ℕ) (f : ℕ → Fin 3 → F) (j : ℕ) : ℕ → Fin 3 → F :=
  let itype := cfg.atomType i
  let jtype := cfg.atomType j
  let del : Fin 3 → F := fun k => cfg.x i k - cfg.x j k
  let dijsq := del 0 * del 0 + del 1 * del 1 + del 2 * del 2
  if dijsq < st.cutOffEnd2 itype jtype then
    let dij := sq dijsq
    let Fr :=
      if dij < st.cutOffStart itype jtype then
        2 * (e (st.p itype jtype * (1 - dij / st.r0 itype jtype)) * st.A itype jtype) *
          (st.p itype jtype / st.r0 itype jtype)
      else
        -2 * switchPolyDeriv (st.a3 itype jtype) (st.a4 itype jtype)
          (st.a5 itype jtype) (st.cutOffEnd itype jtype) dij
    let Fb :=
      if dij < st.cutOffStart itype jtype then
        -((st.QSI itype jtype * st.QSI itype jtype) *
            e (2 * st.q itype jtype * (1 - dij / st.r0 itype jtype))) *
          st.q itype jtype / st.r0 itype jtype
      else
        switchPolyDeriv (st.x3 itype jtype) (st.x4 itype jtype)
            (st.x5 itype jtype) (st.cutOffEnd itype jtype) dij *
          switchPoly (st.x3 itype jtype) (st.x4 itype jtype)
            (st.x5 itype jtype) (st.cutOffEnd itype jtype) dij
    let fpair := (Fb * (eb i + eb j) + Fr) / dij
    let f1 := updF f i (fun k => f i k + del k * fpair)
    if cfg.newton_pair = true ∨ j < cfg.nlocal then
      updF f1 j (fun k => f1 j k - del k * fpair)
    else f1
  else f

/-- The SECOND LOOP body for one atom `i` of `ilist`. -/
def pass2Atom (sq e : F → F) (st : State F) (cfg : Config F) (eb : ℕ → F)
    (f : ℕ → Fin 3 → F) (i : ℕ) : ℕ → Fin 3 → F :=
  (cfg.neigh i).foldl (pass2Pair sq e st cfg eb i) f

/-- The complete SECOND LOOP of `compute` (lines 190-265). -/
def pass2 (sq e : F → F) (st : State F) (cfg : Config F) (eb : ℕ → F)
    (f : ℕ → Fin 3 → F) : ℕ → Fin 3 → F :=
  cfg.ilist.foldl (pass2Atom sq e st cfg eb) f

/-- `PairSMATB::compute` (pair_smatb.cpp, lines 76-267), force/accumulator
path: zero `on_eb` (all `nall` entries with newton on, only the `nlocal`
local ones with newton off), run the FIRST LOOP, reverse-exchange, run the
Support Loop, forward-exchange, then run the SECOND LOOP that accumulates
forces onto `f0`.  Returns the force array and the final `on_eb`.  Energy
and virial tallies (eflag/vflag paths, `ev_tally`,
`virial_fdotr_compute`) are omitted: they never write `on_eb` or `f`. -/
def compute (sq e : F → F) (st : State F) (cfg : Config F) (eb0 : ℕ → F)
    (f0 : ℕ → Fin 3 → F) : (ℕ → Fin 3 → F) × (ℕ → F) :=
  let ebZ := if cfg.newton_pair then zeroFirst cfg.nall eb0
    else zeroFirst cfg.nlocal eb0
  let eb4 := forwardCommOnEb cfg
    (supportLoop sq cfg (reverseCommOnEb cfg (pass1 sq e st cfg ebZ)))
  (pass2 sq e st cfg eb4 f0, eb4)

end PairSMATB

/-- Agreement of two per-atom arrays on every index below `n`. -/
def EqBelow {F : Type} (n : ℕ) (eb eb' : ℕ → F) : Prop :=
  ∀ a, a < n → eb a = eb' a

theorem foldl_congr_eqBelow {F : Type} {α : Type} {n : ℕ}
    (f : (ℕ → F) → α → (ℕ → F)) :
    ∀ (l : List α),
    (∀ x ∈ l, ∀ eb eb', EqBelow n eb eb' → EqBelow n (f eb x) (f eb' x)) →
    ∀ eb eb', EqBelow n eb eb' → EqBelow n (l.foldl f eb) (l.foldl f eb') := by
  intro l
  induction l with
  | nil =>
    intro _ eb eb' h
    simpa using h
  | cons q t ih =>
    intro hf eb eb' h
    rw [List.foldl_cons, List.foldl_cons]
    exact ih (fun x hx => hf x (List.mem_cons_of_mem _ hx)) _ _
      (hf q (List.mem_cons_self _ _) eb eb' h)

theorem foldl_congr_funeq {α β : Type} (f g : β → α → β) :
    ∀ (l : List α), (∀ x ∈ l, ∀ b, f b x = g b x) →
    ∀ b, l.foldl f b = l.foldl g b := by
  intro l
  induction l with
  | nil => intro _ b; rfl
  | cons q t ih =>
    intro hfg b
    rw [List.foldl_cons, List.foldl_cons, hfg q (List.mem_cons_self _ _)]
    exact ih (fun x hx b' => hfg x (List.mem_cons_of_mem _ hx) b') _

theorem pass1Pair_congr {F : Type} [Field F] [LinearOrder F]
    (sq e : F → F) (st : PairSMATB.State F) (cfg : PairSMATB.Config F)
    {n : ℕ} (i j : ℕ) (hi : i < n) (hj : j < n) {eb eb' : ℕ → F}
    (h : EqBelow n eb eb') :
    EqBelow n (PairSMATB.pass1Pair sq e st cfg i eb j)
      (PairSMATB.pass1Pair sq e st cfg i eb' j) := by
  intro a ha
  by_cases hc : PairSMATB.dijsqOf cfg.x i j
      < st.cutOffEnd2 (cfg.atomType i) (cfg.atomType j)
  · simp only [PairSMATB.pass1Pair, hc, if_true, upd1, h i hi, h j hj, h a ha]
  · simp only [PairSMATB.pass1Pair, hc, if_false]
    exact h a ha

theorem pass1_congr {F : Type} [Field F] [LinearOrder F]
    (sq e : F → F) (st : PairSMATB.State F) (cfg : PairSMATB.Config F)
    {n : ℕ} (hil : ∀ i ∈ cfg.ilist, i < n)
    (hne : ∀ i ∈ cfg.ilist, ∀ j ∈ cfg.neigh i, j < n)
    {eb eb' : ℕ → F} (h : EqBelow n eb eb') :
    EqBelow n (PairSMATB.pass1 sq e st cfg eb) (PairSMATB.pass1 sq e st cfg eb') := by
  refine foldl_congr_eqBelow _ cfg.ilist ?_ eb eb' h
  intro i hi ebx ebx' hx
  refine foldl_congr_eqBelow _ (cfg.neigh i) ?_ ebx ebx' hx
  intro j hj eby eby' hy
  exact pass1Pair_congr sq e st cfg i j (hil i hi) (hne i hi j hj) hy

theorem reverseCommOnEb_congr {F : Type} [Field F]
    (cfg : PairSMATB.Config F)
    (hown : ∀ g, cfg.ghostOwner g < cfg.nlocal)
    {eb eb' : ℕ → F} (h : EqBelow cfg.nall eb eb') :
    EqBelow cfg.nall (PairSMATB.reverseCommOnEb cfg eb)
      (PairSMATB.reverseCommOnEb cfg eb') := by
  refine foldl_congr_eqBelow _ _ ?_ eb eb' h
  intro g hg ebx ebx' hx a ha
  have hgn : g < cfg.nall := by
    rw [List.mem_map] at hg
    obtain ⟨t, ht, rfl⟩ := hg
    rw [List.mem_range] at ht
    simp only [PairSMATB.Config.nall]
    omega
  have hog : cfg.ghostOwner g < cfg.nall := by
    have := hown g
    simp only [PairSMATB.Config.nall]
    omega
  simp only [upd1, hx _ hog, hx _ hgn, hx a ha]

theorem supportLoop_congr {F : Type} [Field F] [LinearOrder F]
    (sq : F → F) (cfg : PairSMATB.Config F)
    {n : ℕ} (hil : ∀ i ∈ cfg.ilist, i < n)
    {eb eb' : ℕ → F} (h : EqBelow n eb eb') :
    EqBelow n (PairSMATB.supportLoop sq cfg eb) (PairSMATB.supportLoop sq cfg eb') := by
  refine foldl_congr_eqBelow _ cfg.ilist ?_ eb eb' h
  intro i hi ebx ebx' hx a ha
  by_cases hloc : i < cfg.nlocal
  · simp only [PairSMATB.supportAtom, hloc, if_true, hx i (hil i hi)]
    by_cases hz : sq (ebx' i) ≠ 0
    · rw [if_pos hz, if_pos hz]
      simp only [upd1, hx a ha]
    · rw [if_neg hz, if_neg hz]
      simp only [upd1, hx a ha]
  · simp only [PairSMATB.supportAtom, hloc, if_false]
    exact hx a ha

theorem forwardCommOnEb_congr {F : Type} [Field F]
    (cfg : PairSMATB.Config F)
    (hown : ∀ g, cfg.ghostOwner g < cfg.nlocal)
    {eb eb' : ℕ → F} (h : EqBelow cfg.nall eb eb') :
    EqBelow cfg.nall (PairSMATB.forwardCommOnEb cfg eb)
      (PairSMATB.forwardCommOnEb cfg eb') := by
  intro a ha
  simp only [PairSMATB.forwardCommOnEb]
  by_cases hg : cfg.nlocal ≤ a ∧ a < cfg.nall
  · have hog : cfg.ghostOwner a < cfg.nall := by
      have := hown a
      simp only [PairSMATB.Config.nall]
      omega
    rw [if_pos hg, if_pos hg]
    exact h _ hog
  · rw [if_neg hg, if_neg hg]
    exact h a ha

theorem pass2Pair_congr {F : Type} [Field F] [LinearOrder F]
    (sq e : F → F) (st : PairSMATB.State F) (cfg : PairSMATB.Config F)
    {n : ℕ} (i j : ℕ) (hi : i < n) (hj : j < n) {eb eb' : ℕ → F}
    (h : EqBelow n eb eb') (f : ℕ → Fin 3 → F) :
    PairSMATB.pass2Pair sq e st cfg eb i f j
      = PairSMATB.pass2Pair sq e st cfg eb' i f j := by
  simp only [PairSMATB.pass2Pair, h i hi, h j hj]

theorem pass2_congr {F : Type} [Field F] [LinearOrder F]
    (sq e : F → F) (st : PairSMATB.State F) (cfg : PairSMATB.Config F)
    {n : ℕ} (hil : ∀ i ∈ cfg.ilist, i < n)
    (hne : ∀ i ∈ cfg.ilist, ∀ j ∈ cfg.neigh i, j < n)
    {eb eb' : ℕ → F} (h : EqBelow n eb eb') (f0 : ℕ → Fin 3 → F) :
    PairSMATB.pass2 sq e st cfg eb f0 = PairSMATB.pass2 sq e st cfg eb' f0 := by
  refine foldl_congr_funeq _ _ cfg.ilist ?_ f0
  intro i hi f
  refine foldl_congr_funeq _ _ (cfg.neigh i) ?_ f
  intro j hj f'
  exact pass2Pair_congr sq e st cfg i j (hil i hi) (hne i hi j hj) h f'

/-- A concrete `sqrt` table adequate for the concrete force computations
below: it agrees with the real square root at every argument it is applied
to (`0 ↦ 0`, `4 ↦ 2`, `9 ↦ 3`). -/
def sqrtEx : ℚ → ℚ := fun v => if v = 4 then 2 else if v = 9 then 3 else 0

/-- Concrete coefficient tables exercising the switching-polynomial branch
of both loops of `compute`: `cutOffStart = 0` (so the polynomial branch is
always taken), `cutOffEnd = 3`, `cutOffEnd2 = 9`, `x5 = -1` and all other
polynomial coefficients zero. -/
def stFrc : PairSMATB.State ℚ where
  setflag := fun _ _ => 1
  r0 := fun _ _ => 1
  p := fun _ _ => 0
  A := fun _ _ => 0
  q := fun _ _ => 0
  QSI := fun _ _ => 0
  cutOffStart := fun _ _ => 0
  cutOffEnd := fun _ _ => 3
  cutOffEnd2 := fun _ _ => 9
  a3 := fun _ _ => 0
  a4 := fun _ _ => 0
  a5 := fun _ _ => 0
  x3 := fun _ _ => 0
  x4 := fun _ _ => 0
  x5 := fun _ _ => -1

/-- Concrete newton-off configuration: one local atom at the origin with
two ghost neighbors at distance 2 (both owned by atom 0). -/
def cfgEx : PairSMATB.Config ℚ where
  nlocal := 1
  nghost := 2
  x := fun a k =>
    if a = 0 then 0
    else if a = 1 then (if k = 0 then 2 else 0)
    else (if k = 1 then 2 else 0)
  atomType := fun _ => 1
  ilist := [0]
  neigh := fun a => if a = 0 then [1, 2] else []
  newton_pair := false
  ghostOwner := fun _ => 0

/-- The same configuration with `newton_pair` on. -/
def cfgExOn : PairSMATB.Config ℚ :=
  { cfgEx with newton_pair := true }

/-- A stale accumulator left over from a previous timestep: ghost entry 1
still holds the value 5. -/
def ebStale : ℕ → ℚ := fun a => if a = 1 then 5 else 0

/-- The zero force array `compute` starts from. -/
def fZero : ℕ → Fin 3 → ℚ := fun _ _ => 0

/-- C1 amended: with `newton_pair` on, `PairSMATB::compute` zeroes all
`nall` entries of `on_eb` at the start, the accumulator consumed by the
second pass is exactly the first pass's output pushed through the
reverse exchange, the support-loop reciprocal and the forward exchange —
in that order — and no value of `on_eb` left over from a previous
timestep influences the computed forces or the consumed accumulator.
(With `newton_pair` off only the `nlocal` local entries are zeroed while
pass 1 still writes ghost entries, so a stale ghost value leaks through
the reverse exchange: see the counterexample.) -/
theorem compute_no_carryover {F : Type} [Field F] [LinearOrder F]
    (sq e : F → F) (st : PairSMATB.State F) (cfg : PairSMATB.Config F)
    (eb0 eb0' : ℕ → F) (f0 : ℕ → Fin 3 → F)
    (hnewton : cfg.newton_pair = true)
    (hil : ∀ i ∈ cfg.ilist, i < cfg.nall)
    (hne : ∀ i ∈ cfg.ilist, ∀ j ∈ cfg.neigh i, j < cfg.nall)
    (hown : ∀ g, cfg.ghostOwner g < cfg.nlocal) :
    (PairSMATB.compute sq e st cfg eb0 f0).2
      = PairSMATB.forwardCommOnEb cfg (PairSMATB.supportLoop sq cfg
          (PairSMATB.reverseCommOnEb cfg (PairSMATB.pass1 sq e st cfg
            (PairSMATB.zeroFirst cfg.nall eb0)))) ∧
    (PairSMATB.compute sq e st cfg eb0 f0).1
      = PairSMATB.pass2 sq e st cfg (PairSMATB.compute sq e st cfg eb0 f0).2 f0 ∧
    (PairSMATB.compute sq e st cfg eb0 f0).1
      = (PairSMATB.compute sq e st cfg eb0' f0).1 ∧
    EqBelow cfg.nall (PairSMATB.compute sq e st cfg eb0 f0).2
      (PairSMATB.compute sq e st cfg eb0' f0).2 := by
  have hpipe : ∀ ebx : ℕ → F,
      PairSMATB.compute sq e st cfg ebx f0
        = (PairSMATB.pass2 sq e st cfg (PairSMATB.forwardCommOnEb cfg
            (PairSMATB.supportLoop sq cfg (PairSMATB.reverseCommOnEb cfg
              (PairSMATB.pass1 sq e st cfg (PairSMATB.zeroFirst cfg.nall ebx))))) f0,
           PairSMATB.forwardCommOnEb cfg (PairSMATB.supportLoop sq cfg
            (PairSMATB.reverseCommOnEb cfg (PairSMATB.pass1 sq e st cfg
              (PairSMATB.zeroFirst cfg.nall ebx))))) := by
    intro ebx
    simp only [PairSMATB.compute, hnewton, if_true]
  have hz : EqBelow cfg.nall (PairSMATB.zeroFirst cfg.nall eb0)
      (PairSMATB.zeroFirst cfg.nall eb0') := by
    intro a ha
    simp [PairSMATB.zeroFirst, ha]
  have h4 := forwardCommOnEb_congr cfg hown
    (supportLoop_congr sq cfg hil
      (reverseCommOnEb_congr cfg hown
        (pass1_congr sq e st cfg hil hne hz)))
  refine ⟨?_, ?_, ?_, ?_⟩
  · rw [hpipe eb0]
  · rw [hpipe eb0]
  · rw [hpipe eb0, hpipe eb0']
    exact congrArg (fun eb => PairSMATB.pass2 sq e st cfg eb f0 : (ℕ → F) → _) rfl |>.trans
      (pass2_congr sq e st cfg hil hne h4 f0)
  · rw [hpipe eb0, hpipe eb0']
    exact h4

/-- C1 counterexample: with `newton_pair` off, `compute` zeroes only the
`nlocal` local accumulator entries while the first pass still writes ghost
entries, so a stale ghost value from a previous timestep (here
`on_eb[1] = 5` in `ebStale`) leaks through the reverse exchange into the
owner's consumed accumulator: starting from `ebStale` the second pass reads
`on_eb[0] = 1/3`, starting from a clean accumulator it reads `1/2`. -/
theorem compute_carryover_newton_off :
    (PairSMATB.compute sqrtEx (id : ℚ → ℚ) stFrc cfgEx ebStale fZero).2 0
      ≠ (PairSMATB.compute sqrtEx (id : ℚ → ℚ) stFrc cfgEx (fun _ => 0) fZero).2 0 := by
  have hil : cfgEx.ilist = [0] := rfl
  have hne0 : cfgEx.neigh 0 = [1, 2] := rfl
  have hps : ∀ eb : ℕ → ℚ, PairSMATB.pass1 sqrtEx (id : ℚ → ℚ) stFrc cfgEx eb
      = PairSMATB.pass1Pair sqrtEx (id : ℚ → ℚ) stFrc cfgEx 0
          (PairSMATB.pass1Pair sqrtEx (id : ℚ → ℚ) stFrc cfgEx 0 eb 1) 2 := by
    intro eb
    simp only [PairSMATB.pass1, PairSMATB.pass1Atom, hil, hne0, List.foldl_cons,
      List.foldl_nil]
  have hp1 : ∀ eb : ℕ → ℚ, PairSMATB.pass1Pair sqrtEx (id : ℚ → ℚ) stFrc cfgEx 0 eb 1
      = upd1 (upd1 eb 0 (eb 0 + 1)) 1 (upd1 eb 0 (eb 0 + 1) 1 + 1) := by
    intro eb
    rw [PairSMATB.pass1Pair]
    norm_num +decide [PairSMATB.dijsqOf, PairSMATB.switchPoly, cfgEx, stFrc, sqrtEx]
  have hp2 : ∀ eb : ℕ → ℚ, PairSMATB.pass1Pair sqrtEx (id : ℚ → ℚ) stFrc cfgEx 0 eb 2
      = upd1 (upd1 eb 0 (eb 0 + 1)) 2 (upd1 eb 0 (eb 0 + 1) 2 + 1) := by
    intro eb
    rw [PairSMATB.pass1Pair]
    norm_num +decide [PairSMATB.dijsqOf, PairSMATB.switchPoly, cfgEx, stFrc, sqrtEx]
  have hPt : ∀ eb : ℕ → ℚ,
      PairSMATB.pass1 sqrtEx (id : ℚ → ℚ) stFrc cfgEx eb 0 = eb 0 + 1 + 1
      ∧ PairSMATB.pass1 sqrtEx (id : ℚ → ℚ) stFrc cfgEx eb 1 = eb 1 + 1
      ∧ PairSMATB.pass1 sqrtEx (id : ℚ → ℚ) stFrc cfgEx eb 2 = eb 2 + 1 := by
    intro eb
    rw [hps, hp1, hp2]
    refine ⟨?_, ?_, ?_⟩ <;> norm_num [upd1]
  have hrev : ∀ eb : ℕ → ℚ, PairSMATB.reverseCommOnEb cfgEx eb 0
      = eb 0 + eb 1 + eb 2 := by
    intro eb
    have hr : ((List.range cfgEx.nghost).map (fun t => cfgEx.nlocal + t)) = [1, 2] := rfl
    rw [PairSMATB.reverseCommOnEb, hr]
    norm_num [List.foldl_cons, List.foldl_nil, upd1, cfgEx]
  have hsup : ∀ eb : ℕ → ℚ, PairSMATB.supportLoop sqrtEx cfgEx eb 0
      = (if sqrtEx (eb 0) ≠ 0 then 1 / sqrtEx (eb 0) else 0) := by
    intro eb
    rw [PairSMATB.supportLoop, hil, List.foldl_cons, List.foldl_nil,
      PairSMATB.supportAtom]
    rw [if_pos (show (0 : ℕ) < cfgEx.nlocal by norm_num [cfgEx])]
    by_cases hz : sqrtEx (eb 0) ≠ 0
    · rw [if_pos hz, if_pos hz, upd1_same]
    · rw [if_neg hz, if_neg hz, upd1_same]
  have hfwd : ∀ eb : ℕ → ℚ, PairSMATB.forwardCommOnEb cfgEx eb 0 = eb 0 := by
    intro eb
    simp only [PairSMATB.forwardCommOnEb]
    rw [if_neg (by norm_num [cfgEx, PairSMATB.Config.nall])]
  have hnp : cfgEx.newton_pair = false := rfl
  have hA : (PairSMATB.compute sqrtEx (id : ℚ → ℚ) stFrc cfgEx ebStale fZero).2 0
      = 1 / 3 := by
    simp only [PairSMATB.compute, hnp, Bool.false_eq_true, if_false]
    rw [hfwd, hsup, hrev, (hPt _).1, (hPt _).2.1, (hPt _).2.2]
    norm_num [PairSMATB.zeroFirst, ebStale, cfgEx, sqrtEx]
  have hB : (PairSMATB.compute sqrtEx (id : ℚ → ℚ) stFrc cfgEx (fun _ => 0) fZero).2 0
      = 1 / 2 := by
    simp only [PairSMATB.compute, hnp, Bool.false_eq_true, if_false]
    rw [hfwd, hsup, hrev, (hPt _).1, (hPt _).2.1, (hPt _).2.2]
    norm_num [PairSMATB.zeroFirst, cfgEx, sqrtEx]
  rw [hA, hB]
  norm_num

/-- Nonvacuity instance for `compute_no_carryover`: on the concrete
newton-on configuration `cfgExOn` the forces are identical whether
`compute` starts from the stale accumulator `ebStale` or from a clean
one. -/
theorem compute_no_carryover_witness :
    (PairSMATB.compute sqrtEx (id : ℚ → ℚ) stFrc cfgExOn ebStale fZero).1
      = (PairSMATB.compute sqrtEx (id : ℚ → ℚ) stFrc cfgExOn (fun _ => 0) fZero).1 :=
  (compute_no_carryover sqrtEx (id : ℚ → ℚ) stFrc cfgExOn ebStale (fun _ => 0) fZero
    rfl (by decide) (by decide) (fun _ => Nat.one_pos)).2.2.1

/-- Two local atoms, `newton_pair` on, half neighbor list: atom 0 lists
atom 1 as its only neighbor, as the neighbor builder produces for a
two-atom system. -/
def twoAtomCfg {F : Type} (x : ℕ → Fin 3 → F) (typ : ℕ → ℕ) : PairSMATB.Config F where
  nlocal := 2
  nghost := 0
  x := x
  atomType := typ
  ilist := [0, 1]
  neigh := fun i => if i = 0 then [1] else []
  newton_pair := true
  ghostOwner := fun _ => 0

/-- C4: for a two-atom system (both atoms local, newton pair on) at any
separation strictly inside the cutoff, the force `PairSMATB::compute`
accumulates on atom 0 is the exact negative of the force accumulated on
atom 1: the single pair contribution adds `del * fpair` to `f[i]` and
subtracts the same vector from `f[j]`. -/
theorem smatb_newton_third_law {F : Type} [Field F] [LinearOrder F]
    (sq e : F → F) (st : PairSMATB.State F) (x : ℕ → Fin 3 → F) (typ : ℕ → ℕ)
    (eb0 : ℕ → F) (f0 : ℕ → Fin 3 → F)
    (hpos : 0 < PairSMATB.dijsqOf x 0 1)
    (hcut : PairSMATB.dijsqOf x 0 1 < st.cutOffEnd2 (typ 0) (typ 1)) :
    ∀ k : Fin 3,
      (PairSMATB.compute sq e st (twoAtomCfg x typ) eb0 f0).1 0 k - f0 0 k
        = -((PairSMATB.compute sq e st (twoAtomCfg x typ) eb0 f0).1 1 k - f0 1 k) := by
  intro k
  have hred : ∀ eb : ℕ → F, PairSMATB.pass2 sq e st (twoAtomCfg x typ) eb f0
      = PairSMATB.pass2Pair sq e st (twoAtomCfg x typ) eb 0 f0 1 := by
    intro eb
    have h1 : (twoAtomCfg x typ).ilist = [0, 1] := rfl
    have h2 : (twoAtomCfg x typ).neigh 0 = [1] := rfl
    have h3 : (twoAtomCfg x typ).neigh 1 = ([] : List ℕ) := rfl
    simp only [PairSMATB.pass2, PairSMATB.pass2Atom, h1, h2, h3, List.foldl_cons,
      List.foldl_nil]
  have hx : (twoAtomCfg x typ).x = x := rfl
  have hty : (twoAtomCfg x typ).atomType = typ := rfl
  have hnl : (twoAtomCfg x typ).nlocal = 2 := rfl
  have hnewt : (twoAtomCfg x typ).newton_pair = true := rfl
  have hcut2 : (x 0 0 - x 1 0) * (x 0 0 - x 1 0) + (x 0 1 - x 1 1) * (x 0 1 - x 1 1)
      + (x 0 2 - x 1 2) * (x 0 2 - x 1 2) < st.cutOffEnd2 (typ 0) (typ 1) := hcut
  have hcompute : (PairSMATB.compute sq e st (twoAtomCfg x typ) eb0 f0).1
      = PairSMATB.pass2 sq e st (twoAtomCfg x typ)
          (PairSMATB.compute sq e st (twoAtomCfg x typ) eb0 f0).2 f0 := by
    simp only [PairSMATB.compute]
  rw [hcompute, hred]
  simp only [PairSMATB.pass2Pair, hx, hty, hnl, hnewt, eq_self_iff_true, true_or,
    if_true]
  rw [if_pos hcut2]
  simp only [PairSMATB.updF]
  norm_num

/-- Positions for the two-atom nonvacuity instance: atom 0 at the origin,
atom 1 at `(2, 0, 0)`. -/
def xW : ℕ → Fin 3 → ℚ := fun a k => if a = 0 then 0 else if k = 0 then 2 else 0

/-- Nonvacuity instance for `smatb_newton_third_law` at the concrete
two-atom configuration: separation 2, cutoff 3. -/
theorem smatb_newton_third_law_witness :
    (PairSMATB.compute sqrtEx (id : ℚ → ℚ) stFrc (twoAtomCfg xW (fun _ => 1))
          ebStale fZero).1 0 0 - fZero 0 0
        = -((PairSMATB.compute sqrtEx (id : ℚ → ℚ) stFrc (twoAtomCfg xW (fun _ => 1))
          ebStale fZero).1 1 0 - fZero 1 0) :=
  smatb_newton_third_law sqrtEx (id : ℚ → ℚ) stFrc xW (fun _ => 1) ebStale fZero
    (by norm_num +decide [PairSMATB.dijsqOf, xW])
    (by norm_num +decide [PairSMATB.dijsqOf, xW, stFrc]) 0

namespace CPairPOD

/-- `CPairPOD::lammpsNeighPairs` (pair_pod.cpp, lines 355-386), pair-filter
part: for atom `gi`, each neighbor `gj` of its list is kept iff
`rsq < rcut*rcut && rsq > 1e-20`, where `rsq` is the squared length of
`(xj - xi)`; kept pairs are appended in neighbor order as the separation
vector together with `gj` (the `rij`/`aj` data). -/
def lammpsNeighPairs {F : Type} [Field F] [LinearOrder F] (rcut : F)
    (x : ℕ → Fin 3 → F) (neigh : List ℕ) (gi : ℕ) : List ((Fin 3 → F) × ℕ) :=
  let rcutsq := rcut * rcut
  neigh.filterMap fun gj =>
    let delx := x gj 0 - x gi 0
    let dely := x gj 1 - x gi 1
    let delz := x gj 2 - x gi 2
    let rsq := delx * delx + dely * dely + delz * delz
    if rsq < rcutsq ∧ rsq > 1e-20 then
      some (fun k => if k = 0 then delx else if k = 1 then dely else delz, gj)
    else none

end CPairPOD

namespace PairSMATB

/-- The admission test of the SECOND LOOP of `PairSMATB::compute`
(pair_smatb.cpp, line 208): a pair is processed iff
`dijsq < cutOffEnd2[itype][jtype]`.  There is no lower bound on the
separation. -/
def pass2Admits {F : Type} [LinearOrder F] (st : State F) (itype jtype : ℕ)
    (dijsq : F) : Prop :=
  dijsq < st.cutOffEnd2 itype jtype

/-- The divisor of `fpair = (Fb * (on_eb[i] + on_eb[j]) + Fr) / dij` in the
SECOND LOOP (pair_smatb.cpp, lines 209 and 248): `dij = sqrt(dijsq)`,
computed and divided by unconditionally for every admitted pair. -/
def pass2Divisor {F : Type} (sq : F → F) (dijsq : F) : F := sq dijsq

end PairSMATB

/-- C7 amended: `CPairPOD::lammpsNeighPairs` guards near-zero separation —
a pair enters the POD force pipeline only when `1e-20 < rsq < rcut²` — but
`PairSMATB::compute` has no such guard: its second loop admits a pair at
exactly zero separation whenever the cutoff is positive, and divides by
`dij = sqrt(dijsq)` unconditionally for every admitted pair. -/
theorem nearzero_separation_guard {F : Type} [Field F] [LinearOrder F] :
    (∀ (rcut : F) (x : ℕ → Fin 3 → F) (neigh : List ℕ) (gi : ℕ)
       (pr : (Fin 3 → F) × ℕ), pr ∈ CPairPOD.lammpsNeighPairs rcut x neigh gi →
       1e-20 < pr.1 0 * pr.1 0 + pr.1 1 * pr.1 1 + pr.1 2 * pr.1 2 ∧
       pr.1 0 * pr.1 0 + pr.1 1 * pr.1 1 + pr.1 2 * pr.1 2 < rcut * rcut) ∧
    (∀ (st : PairSMATB.State F) (itype jtype : ℕ),
       0 < st.cutOffEnd2 itype jtype →
       PairSMATB.pass2Admits st itype jtype 0 ∧
       ∀ sq : F → F, PairSMATB.pass2Divisor sq 0 = sq 0) := by
  constructor
  · intro rcut x neigh gi pr hpr
    rw [CPairPOD.lammpsNeighPairs, List.mem_filterMap] at hpr
    obtain ⟨gj, _, hif⟩ := hpr
    by_cases hc : (x gj 0 - x gi 0) * (x gj 0 - x gi 0)
        + (x gj 1 - x gi 1) * (x gj 1 - x gi 1)
        + (x gj 2 - x gi 2) * (x gj 2 - x gi 2) < rcut * rcut ∧
        (x gj 0 - x gi 0) * (x gj 0 - x gi 0)
        + (x gj 1 - x gi 1) * (x gj 1 - x gi 1)
        + (x gj 2 - x gi 2) * (x gj 2 - x gi 2) > 1e-20
    · rw [if_pos hc] at hif
      cases hif
      refine ⟨?_, ?_⟩ <;> simp only [] <;> [exact hc.2; exact hc.1]
    · rw [if_neg hc] at hif
      cases hif
  · intro st itype jtype hce
    exact ⟨hce, fun _ => rfl⟩

/-- Coincident positions: every atom at the origin. -/
def xCo : ℕ → Fin 3 → ℚ := fun _ _ => 0

/-- C7 counterexample: two coincident atoms (both at the origin, `xCo`) are
at squared separation exactly `0`, which the second loop of
`PairSMATB::compute` admits under the cutoff `cutOffEnd2 = 9` of `stFrc`,
and the divisor of `fpair` there is `sqrt(0) = 0` — the division by the
pair distance is performed at zero separation, with no guard. -/
theorem smatb_divides_at_zero_separation :
    PairSMATB.dijsqOf xCo 0 1 = 0 ∧
    PairSMATB.pass2Admits stFrc 1 1 (PairSMATB.dijsqOf xCo 0 1) ∧
    PairSMATB.pass2Divisor sqrtEx (PairSMATB.dijsqOf xCo 0 1) = 0 := by
  have h0 : PairSMATB.dijsqOf xCo 0 1 = 0 := by
    norm_num [PairSMATB.dijsqOf, xCo]
  refine ⟨h0, ?_, ?_⟩
  · rw [h0]
    show (0 : ℚ) < stFrc.cutOffEnd2 1 1
    norm_num [stFrc]
  · rw [h0]
    show sqrtEx 0 = 0
    norm_num [sqrtEx]

/-- The pair record `lammpsNeighPairs` builds for the neighbor `1` of atom
`0` at the concrete positions `xW`. -/
def prW : (Fin 3 → ℚ) × ℕ :=
  (fun k => if k = 0 then xW 1 0 - xW 0 0
    else if k = 1 then xW 1 1 - xW 0 1 else xW 1 2 - xW 0 2, 1)

/-- Nonvacuity instance for `nearzero_separation_guard`: at the concrete
positions `xW` with `rcut = 3`, the POD pair filter keeps the pair at
squared separation 4 and the kept record satisfies both bounds; and the
SMATB second loop admits zero separation under the positive cutoff of
`stFrc`. -/
theorem nearzero_separation_guard_witness :
    ((1e-20 : ℚ) < prW.1 0 * prW.1 0 + prW.1 1 * prW.1 1 + prW.1 2 * prW.1 2 ∧
      prW.1 0 * prW.1 0 + prW.1 1 * prW.1 1 + prW.1 2 * prW.1 2 < 3 * 3) ∧
    PairSMATB.pass2Admits stFrc 1 1 0 := by
  have hmem : prW ∈ CPairPOD.lammpsNeighPairs (3 : ℚ) xW [1] 0 := by
    rw [CPairPOD.lammpsNeighPairs, List.mem_filterMap]
    refine ⟨1, List.mem_singleton_self 1, ?_⟩
    rw [if_pos (by norm_num +decide [xW])]
    rfl
  exact ⟨(nearzero_separation_guard.1 3 xW [1] 0 prW hmem),
    ((nearzero_separation_guard.2 stFrc 1 1 (by norm_num [stFrc])).1)⟩
